import Mathlib

/- Shallow embedding of the wallet-materialization core of web3-wallet-utils:
   the provider resolver, the BIP-44 account materializer and the key-pair
   presenter, translated from src/getWallet.js, src/src/getWallet.js and
   src/models/Web3Wallet.js.  JavaScript strings are Lean Strings, JS arrays
   are Lean Lists, machine numbers that stay integral are Nat, the one JS
   float that appears (the result of parseFloat) is an exact rational, and
   every fallible step returns Except.  Console output is not modelled; a
   fatal exit (console.log(err); process.exit(1)) is a dedicated outcome
   constructor. -/

/-- Process environment: maps a variable name to its value, none when unset. -/
def EnvMap : Type := String → Option String

/-- Modelled from the spec: the configuration module ./config required by all
three source files is not under src/.  Paragraph 6 of the spec says the default
network and the RPC port are sourced from it; its two exported values are
abstracted here. -/
structure AppConfig where
  DEFAULT_NETWORK : String
  RPC_PORT_GANACHE : String
  deriving DecidableEq, Repr

/-- ASCII uppercase of one character.  JS String.prototype.toUpperCase does
Unicode mapping; every network name this repository handles is ASCII, so only
the ASCII range is modelled. -/
def upChar (c : Char) : Char :=
  if 97 ≤ c.toNat ∧ c.toNat ≤ 122 then Char.ofNat (c.toNat - 32) else c

/-- ASCII lowercase of one character (JS String.prototype.toLowerCase,
restricted to ASCII as above). -/
def downChar (c : Char) : Char :=
  if 65 ≤ c.toNat ∧ c.toNat ≤ 90 then Char.ofNat (c.toNat + 32) else c

/-- JS s.toUpperCase() on the ASCII fragment. -/
def toUpperCase (s : String) : String := String.mk (s.data.map upChar)

/-- JS s.toLowerCase() on the ASCII fragment. -/
def toLowerCase (s : String) : String := String.mk (s.data.map downChar)

/-- Decimal digit character for a digit value; values above nine cannot arise
in this development (all call sites pass n % 10). -/
def digitChar10 : Nat → Char
  | 0 => '0'
  | 1 => '1'
  | 2 => '2'
  | 3 => '3'
  | 4 => '4'
  | 5 => '5'
  | 6 => '6'
  | 7 => '7'
  | 8 => '8'
  | _ => '9'

/-- Value of a string of decimal digits, most significant first (the numeric
reading JS and ethers BigNumber give a digit string). -/
def digitsToNat (l : List Char) : Nat :=
  l.foldl (fun n c => 10 * n + (c.toNat - 48)) 0

/-- Digits of n in base ten, least significant first; fuel-structured so the
kernel can evaluate it (fuel ≥ n suffices, one digit is emitted per step). -/
def natToDigitsRevAux : Nat → Nat → List Char
  | 0, _ => []
  | fuel + 1, n => if n = 0 then [] else digitChar10 (n % 10) :: natToDigitsRevAux fuel (n / 10)

/-- Canonical decimal numeral of n as a character list (no sign, no leading
zeros, "0" for zero) — the spelling JS Number/BigNumber toString produces for
a nonnegative integer. -/
def natToDecimalList (n : Nat) : List Char :=
  if n = 0 then ['0'] else (natToDigitsRevAux n n).reverse

/-- Canonical decimal numeral of n as a String. -/
def natToDecimal (n : Nat) : String := String.mk (natToDecimalList n)

/-- Split a character list at every dot, the List-level engine of JS
String.prototype.split(".") used by ethers to parse decimal strings. -/
def splitOnDotAux : List Char → List Char → List (List Char)
  | [], acc => [acc.reverse]
  | c :: rest, acc =>
      if c = '.' then acc.reverse :: splitOnDotAux rest [] else splitOnDotAux rest (c :: acc)

/-- Drop trailing zero characters (ethers formatUnits trims the fraction). -/
def dropTrailingZeros (l : List Char) : List Char :=
  (l.reverse.dropWhile (fun c => c = '0')).reverse

/-- ethers v5 utils.parseEther: a nonnegative decimal string to wei, error on a
malformed string or more than eighteen fraction digits.  The sign prefix ethers
also accepts is not modelled; no balance in this repository is negative. -/
def parseEther (s : String) : Except String Nat :=
  let l := s.data
  if l = [] then .error "invalid decimal value"
  else if l.all (fun c => c.isDigit || c = '.') = false then .error "invalid decimal value"
  else
    match splitOnDotAux l [] with
    | [w] => .ok (digitsToNat w * 10 ^ 18)
    | [w, f] =>
        if f.length ≤ 18 then .ok (digitsToNat w * 10 ^ 18 + digitsToNat f * 10 ^ (18 - f.length))
        else .error "fractional component exceeds decimals"
    | _ => .error "too many decimal points"

/-- ethers v5 utils.formatEther: wei to a decimal ether string, fraction
trimmed of trailing zeros but never empty (100 * 10^18 prints as "100.0"). -/
def formatEther (wei : Nat) : String :=
  let whole := natToDecimalList (wei / 10 ^ 18)
  let fracRaw := natToDecimalList (wei % 10 ^ 18)
  let frac := dropTrailingZeros (List.replicate (18 - fracRaw.length) '0' ++ fracRaw)
  String.mk (whole ++ '.' :: (if frac = [] then ['0'] else frac))

/-- JS parseFloat on the clean decimal strings produced by formatEther,
modelled as an exact rational.  This is faithful to the IEEE-double parseFloat
whenever the value is exactly representable — in particular for every integer
below 2^53, the only range any theorem below evaluates it on.  Strings that
are not decimal numerals (where JS gives NaN) are unreachable from the
embedded code and read as zero. -/
def jsParseFloat (s : String) : ℚ :=
  match splitOnDotAux s.data [] with
  | [w] => mkRat (digitsToNat w) 1
  | [w, f] => mkRat (digitsToNat w * 10 ^ f.length + digitsToNat f) (10 ^ f.length)
  | _ => 0

/-- JS Number.prototype.toString.  An integral double prints as its decimal
numeral with no point; that is the only case the theorems below exercise.  A
non-integral double prints as its shortest round-tripping decimal, rendered
here as the exact expansion truncated to eighteen fraction digits, which
agrees with JS on every value the embedded code can produce from formatEther
output that is exactly double-representable. -/
def jsNumberToString (q : ℚ) : String :=
  if q.den = 1 then
    (if q.num < 0 then String.mk ['-'] ++ natToDecimal q.num.natAbs else natToDecimal q.num.natAbs)
  else
    (if q < 0 then String.mk ['-'] else String.mk []) ++ formatEther (Int.toNat ⌊|q| * 10 ^ 18⌋)

deriving instance DecidableEq for Except

/-- Apostrophe character as a string, used to build the BIP-44 path text. -/
def apos : String := String.mk [Char.ofNat 39]

/-- Derivation path of account i, the source's path(step) template literal
producing the text m/44h/60h/0h/0h-slash-i with hardened marks. -/
def bip44Path (step : Nat) : String :=
  "m/44" ++ apos ++ "/60" ++ apos ++ "/0" ++ apos ++ "/0/" ++ natToDecimal step

/-- Outcome of one try/catch-wrapped run.  fatal e models the source's catch
block, console.log(err) followed by process.exit(1): the error text is printed
and the process terminates, so no value ever reaches the caller. -/
inductive RunResult (α : Type) where
  | ok (value : α)
  | fatal (err : String)
  deriving DecidableEq, Repr

/-- One seeded account handed to Ganache.provider: the secret key as a hex
string (the Buffer is identified with its hex spelling) and the funded wei
balance as a decimal string, exactly the object literal built in the source. -/
structure GanacheAccount where
  secretKey : String
  balance : String
  deriving DecidableEq, Repr

/-- Provider handles the resolver can construct: a JSON-RPC connection to a
local URL, an in-process ganache-core simulated chain seeded with the given
accounts, or an Alchemy gateway for a (lowercased) network with an API key
that may be absent from the environment. -/
inductive RpcProvider where
  | jsonRpc (url : String)
  | ganacheCore (accounts : List GanacheAccount)
  | alchemy (network : String) (apiKey : Option String)
  deriving DecidableEq, Repr

/-- An ethers Wallet as the embedded code observes it: address, 0x-prefixed
private key, and the provider it was bound to (none when constructed against
a null provider). -/
structure WalletAccount where
  address : String
  privateKey : String
  provider : Option RpcProvider
  deriving DecidableEq, Repr

/-- Oracle for the external ethers/ganache functionality the repository
delegates to: deterministic mnemonic+path key derivation, address computation
from a private key, and the provider-mediated balance query (in wei). -/
structure WalletLib where
  fromMnemonic : String → String → Except String String
  keyToAddress : String → String
  getBalance : RpcProvider → String → Except String Nat

/-- ethers Wallet.fromMnemonic with a possibly-undefined mnemonic: ethers
throws on undefined before any derivation happens. -/
def fromMnemonicJS (lib : WalletLib) (m : Option String) (p : String) : Except String String :=
  match m with
  | none => .error "invalid mnemonic"
  | some s => lib.fromMnemonic s p

/-- ethers Wallet#getBalance: a wallet constructed against a null provider
throws (missing provider) instead of querying. -/
def getBalanceJS (lib : WalletLib) (p : Option RpcProvider) (pk : String) : Except String Nat :=
  match p with
  | none => .error "missing provider"
  | some prov => lib.getBalance prov pk

/-- new Wallet(privateKey, provider): the address is recomputed from the key. -/
def mkWallet (lib : WalletLib) (pk : String) (p : Option RpcProvider) : WalletAccount :=
  { address := lib.keyToAddress pk, privateKey := pk, provider := p }

/-- Subject of the source's switch: network ? network.toUpperCase() : NETWORK.
The only falsy String is the empty one. -/
def jsSwitchNetwork (moduleNETWORK : String) (network : Option String) : String :=
  match network with
  | some n => if n = "" then moduleNETWORK else toUpperCase n
  | none => moduleNETWORK

/-- JS strict equality between a value and a fresh array literal, the guard
addresses === [] in src/src/getWallet.js and Web3Wallet.js: === on objects
compares references and a fresh literal is a new reference, so the comparison
is false for every operand. -/
def jsStrictEqFreshArrayLiteral {α : Type} (_ : List α) : Bool := false

/-- Alchemy API key lookup, process.env of ALCHEMY_ NETWORK _KEY. -/
def alchemyApiKey (env : EnvMap) (NETWORK : String) : Option String :=
  env ("ALCHEMY_" ++ NETWORK ++ "_KEY")

/-- The source's addresses.map callback for the GANACHE_CORE branch, element
by element: each address becomes a seeded account funded with
parseEther(balance) wei; a parse failure is thrown out of the map. -/
def ganacheAccountsOf (balance : Except String Nat) : List String → Except String (List GanacheAccount)
  | [] => .ok []
  | address :: rest =>
    match balance with
    | .error e => .error e
    | .ok wei =>
      match ganacheAccountsOf balance rest with
      | .error e => .error e
      | .ok accs => .ok ({ secretKey := address, balance := natToDecimal wei } :: accs)

/-- Module state of src/getWallet.js: let NETWORK = DEFAULT_NETWORK, mutated
by every exported function (MNEMONIC there is a load-time constant read from
the environment and is passed separately). -/
structure RootState where
  NETWORK : String
  deriving DecidableEq, Repr

/-- Dynamic value of the root module's reassigned balance variable: it enters
the loop as the string parameter and is overwritten with the parseFloat result
(a JS number) at the end of every iteration. -/
inductive JsVal where
  | str (s : String)
  | num (q : ℚ)
  deriving DecidableEq, Repr

/-- utils.parseEther applied to the dynamic balance variable: ethers v5 throws
on a non-string argument. -/
def parseEtherVal : JsVal → Except String Nat
  | .str s => parseEther s
  | .num _ => .error "invalid decimal value"

/-- getProvider of src/getWallet.js.  The switch subject is
network ? network.toUpperCase() : NETWORK; GANACHE connects to the local RPC
URL, GANACHE_CORE seeds a ganache-core chain with the given hex keys at
parseEther(balance) wei each (no emptiness check exists in this variant), and
the default branch constructs an Alchemy provider from the module NETWORK and
its possibly absent environment key — the key is never checked. -/
def rootGetProvider (env : EnvMap) (cfg : AppConfig) (NETWORK : String)
    (network : Option String) (addresses : List String) (balance : JsVal) :
    Except String RpcProvider :=
  let subject := jsSwitchNetwork NETWORK network
  if subject = "GANACHE" then
    .ok (.jsonRpc ("http://127.0.0.1:" ++ cfg.RPC_PORT_GANACHE))
  else if subject = "GANACHE_CORE" then
    match ganacheAccountsOf (parseEtherVal balance) addresses with
    | .error e => .error e
    | .ok accounts => .ok (.ganacheCore accounts)
  else
    .ok (.alchemy (toLowerCase NETWORK) (alchemyApiKey env NETWORK))

/-- State of the getBIP44Wallet loop in src/getWallet.js, instrumented with
counts of provider resolutions and key derivations along the run. -/
structure RootLoop where
  wallet : List WalletAccount
  balances : List ℚ
  provider : Option RpcProvider
  balance : JsVal
  resolveCount : Nat
  deriveCount : Nat
  deriving DecidableEq, Repr

/-- End of one iteration of the root loop: the freshly bound account and its
parseFloat(formatEther(wei)) balance are appended, and the balance variable is
overwritten with that number. -/
def rootLoopPush (lib : WalletLib) (s : RootLoop) (pk : String) (p : RpcProvider) (wei : Nat) : RootLoop :=
  { wallet := s.wallet ++ [mkWallet lib pk (some p)]
    balances := s.balances ++ [jsParseFloat (formatEther wei)]
    provider := s.provider
    balance := .num (jsParseFloat (formatEther wei))
    resolveCount := s.resolveCount
    deriveCount := s.deriveCount }

/-- The for-loop of getBIP44Wallet in src/getWallet.js: derive the key at
index i, resolve a provider only when none exists yet (seeding GANACHE_CORE
with just the current key), bind the account, fetch and convert its balance,
and push.  Any throw aborts the remaining iterations. -/
def rootLoopGo (lib : WalletLib) (env : EnvMap) (cfg : AppConfig) (NETWORK : String)
    (MNEM : Option String) : Nat → Nat → RootLoop → Except String RootLoop
  | 0, _, s => .ok s
  | k + 1, i, s =>
    match fromMnemonicJS lib MNEM (bip44Path i) with
    | .error e => .error e
    | .ok pk =>
      match s.provider with
      | some p =>
        match getBalanceJS lib (some p) pk with
        | .error e => .error e
        | .ok wei =>
          rootLoopGo lib env cfg NETWORK MNEM k (i + 1)
            (rootLoopPush lib { s with deriveCount := s.deriveCount + 1 } pk p wei)
      | none =>
        match rootGetProvider env cfg NETWORK (some NETWORK) [pk.drop 2] s.balance with
        | .error e => .error e
        | .ok p =>
          match getBalanceJS lib (some p) pk with
          | .error e => .error e
          | .ok wei =>
            rootLoopGo lib env cfg NETWORK MNEM k (i + 1)
              (rootLoopPush lib
                { s with provider := some p, resolveCount := s.resolveCount + 1,
                         deriveCount := s.deriveCount + 1 } pk p wei)

/-- getBIP44Wallet of src/getWallet.js, traced: NETWORK is set to the
uppercased argument, then the loop derives the requested number of accounts
starting from no provider; the traced form keeps the whole loop state.
Defaults: network = NETWORK, numberOfWallets = 10, balance = '100'. -/
def rootGetBIP44WalletT (lib : WalletLib) (env : EnvMap) (cfg : AppConfig) (st : RootState)
    (network : Option String) (numberOfWallets : Option Nat) (balance : Option String) :
    RunResult RootLoop × RootState :=
  let net := network.getD st.NETWORK
  let n := numberOfWallets.getD 10
  let bal := balance.getD "100"
  let st1 : RootState := { NETWORK := toUpperCase net }
  match rootLoopGo lib env cfg st1.NETWORK (env "MNEMONIC") n 0
      { wallet := [], balances := [], provider := none, balance := .str bal,
        resolveCount := 0, deriveCount := 0 } with
  | .ok s => (.ok s, st1)
  | .error e => (.fatal e, st1)

/-- getBIP44Wallet of src/getWallet.js as its caller sees it: the pair of the
account array and the balance array, or a fatal exit. -/
def rootGetBIP44Wallet (lib : WalletLib) (env : EnvMap) (cfg : AppConfig) (st : RootState)
    (network : Option String) (numberOfWallets : Option Nat) (balance : Option String) :
    RunResult (List WalletAccount × List ℚ) × RootState :=
  match rootGetBIP44WalletT lib env cfg st network numberOfWallets balance with
  | (.ok s, st1) => (.ok (s.wallet, s.balances), st1)
  | (.fatal e, st1) => (.fatal e, st1)

/-- getPrivateKeys of src/getWallet.js: uppercase and store the network, run
getBIP44Wallet with it, print (console output unmodelled), and collect each
account's private key with the 0x prefix stripped. -/
def rootGetPrivateKeys (lib : WalletLib) (env : EnvMap) (cfg : AppConfig) (st : RootState)
    (network : Option String) (numberOfWallets : Option Nat) :
    RunResult (List String) × RootState :=
  let net := network.getD st.NETWORK
  let n := numberOfWallets.getD 10
  let st1 : RootState := { NETWORK := toUpperCase net }
  match rootGetBIP44Wallet lib env cfg st1 (some st1.NETWORK) (some n) none with
  | (.ok (w, _), st2) => (.ok (w.map (fun a => a.privateKey.drop 2)), st2)
  | (.fatal e, st2) => (.fatal e, st2)

/-- getKeyPairs of src/getWallet.js: like getPrivateKeys but returning the
two-element array of the address array and the stripped private-key array. -/
def rootGetKeyPairs (lib : WalletLib) (env : EnvMap) (cfg : AppConfig) (st : RootState)
    (network : Option String) (numberOfWallets : Option Nat) :
    RunResult (List (List String)) × RootState :=
  let net := network.getD st.NETWORK
  let n := numberOfWallets.getD 10
  let st1 : RootState := { NETWORK := toUpperCase net }
  match rootGetBIP44Wallet lib env cfg st1 (some st1.NETWORK) (some n) none with
  | (.ok (w, _), st2) =>
      (.ok [w.map (fun a => a.address), w.map (fun a => a.privateKey.drop 2)], st2)
  | (.fatal e, st2) => (.fatal e, st2)

/-- Module state of src/src/getWallet.js: both NETWORK and MNEMONIC are
mutable module-level variables; MNEMONIC starts as process.env.MNEMONIC and is
overwritten by getKeyPairs. -/
structure SrcState where
  NETWORK : String
  MNEMONIC : Option String
  deriving DecidableEq, Repr

/-- getProvider of src/src/getWallet.js (parameter order addresses, network,
balance).  Identical to the root variant except for the GANACHE_CORE guard
addresses === [] meant to yield a null provider; being a reference comparison
with a fresh literal it never fires, so the branch may in principle return
none and the call sites treat the result as nullable. -/
def srcGetProvider (env : EnvMap) (cfg : AppConfig) (NETWORK : String)
    (addresses : List String) (network : Option String) (balance : String) :
    Except String (Option RpcProvider) :=
  let subject := jsSwitchNetwork NETWORK network
  if subject = "GANACHE" then
    .ok (some (.jsonRpc ("http://127.0.0.1:" ++ cfg.RPC_PORT_GANACHE)))
  else if subject = "GANACHE_CORE" then
    if jsStrictEqFreshArrayLiteral addresses then .ok none
    else
      match ganacheAccountsOf (parseEther balance) addresses with
      | .error e => .error e
      | .ok accounts => .ok (some (.ganacheCore accounts))
  else
    .ok (some (.alchemy (toLowerCase NETWORK) (alchemyApiKey env NETWORK)))

/-- State of the getBIP44Wallet loop in src/src/getWallet.js; this variant
keeps the converted balance a string (toString is applied to the parseFloat
result before it is stored). -/
structure SrcLoop where
  wallet : List WalletAccount
  balances : List String
  provider : Option RpcProvider
  balance : String
  resolveCount : Nat
  deriving DecidableEq, Repr

/-- End of one iteration of the src/src loop: account and stringified balance
are appended and the balance variable is overwritten with that string. -/
def srcLoopPush (lib : WalletLib) (s : SrcLoop) (pk : String) (p : Option RpcProvider) (wei : Nat) : SrcLoop :=
  { wallet := s.wallet ++ [mkWallet lib pk p]
    balances := s.balances ++ [jsNumberToString (jsParseFloat (formatEther wei))]
    provider := s.provider
    balance := jsNumberToString (jsParseFloat (formatEther wei))
    resolveCount := s.resolveCount }

/-- The for-loop of getBIP44Wallet in src/src/getWallet.js.  Because this
getProvider is nullable, a none result leaves the provider unset and the
account is bound to a null provider. -/
def srcLoopGo (lib : WalletLib) (env : EnvMap) (cfg : AppConfig) (NETWORK : String)
    (MNEM : Option String) : Nat → Nat → SrcLoop → Except String SrcLoop
  | 0, _, s => .ok s
  | k + 1, i, s =>
    match fromMnemonicJS lib MNEM (bip44Path i) with
    | .error e => .error e
    | .ok pk =>
      match s.provider with
      | some p =>
        match getBalanceJS lib (some p) pk with
        | .error e => .error e
        | .ok wei =>
          srcLoopGo lib env cfg NETWORK MNEM k (i + 1) (srcLoopPush lib s pk (some p) wei)
      | none =>
        match srcGetProvider env cfg NETWORK [pk.drop 2] (some NETWORK) s.balance with
        | .error e => .error e
        | .ok pOpt =>
          match getBalanceJS lib pOpt pk with
          | .error e => .error e
          | .ok wei =>
            srcLoopGo lib env cfg NETWORK MNEM k (i + 1)
              (srcLoopPush lib { s with provider := pOpt, resolveCount := s.resolveCount + 1 } pk pOpt wei)

/-- getBIP44Wallet of src/src/getWallet.js: set NETWORK to the uppercased
argument, then loop from index 0 with no provider; returns the account and
balance arrays or exits fatally.  Defaults: network = NETWORK,
numberOfWallets = 10, balance = '100'. -/
def srcGetBIP44Wallet (lib : WalletLib) (env : EnvMap) (cfg : AppConfig) (st : SrcState)
    (network : Option String) (numberOfWallets : Option Nat) (balance : Option String) :
    RunResult (List WalletAccount × List String) × SrcState :=
  let net := network.getD st.NETWORK
  let n := numberOfWallets.getD 10
  let bal := balance.getD "100"
  let st1 : SrcState := { st with NETWORK := toUpperCase net }
  match srcLoopGo lib env cfg st1.NETWORK st1.MNEMONIC n 0
      { wallet := [], balances := [], provider := none, balance := bal, resolveCount := 0 } with
  | .ok s => (.ok (s.wallet, s.balances), st1)
  | .error e => (.fatal e, st1)

/-- getKeyPairs of src/src/getWallet.js.  Defaults are evaluated at entry
(network = NETWORK, numberOfWallets = 10, mnemonic = MNEMONIC); the body then
stores mnemonic.toLowerCase() in the module MNEMONIC and network.toUpperCase()
in the module NETWORK before materializing and projecting the key pairs.
When both the argument and the module mnemonic are absent,
mnemonic.toLowerCase() raises a TypeError (an unhandled rejection, modelled as
a fatal outcome with the state unchanged). -/
def srcGetKeyPairs (lib : WalletLib) (env : EnvMap) (cfg : AppConfig) (st : SrcState)
    (network : Option String) (numberOfWallets : Option Nat) (mnemonic : Option String) :
    RunResult (List (List String)) × SrcState :=
  let net := network.getD st.NETWORK
  let n := numberOfWallets.getD 10
  match (match mnemonic with | some m => some m | none => st.MNEMONIC) with
  | none => (.fatal "TypeError: mnemonic is undefined", st)
  | some m =>
    let st1 : SrcState := { st with MNEMONIC := some (toLowerCase m) }
    let st2 : SrcState := { st1 with NETWORK := toUpperCase net }
    match srcGetBIP44Wallet lib env cfg st2 (some st2.NETWORK) (some n) none with
    | (.ok (w, _), st3) =>
        (.ok [w.map (fun a => a.address), w.map (fun a => a.privateKey.drop 2)], st3)
    | (.fatal e, st3) => (.fatal e, st3)

/-- Instance state of a Web3Wallet object: the five private configuration
fields, the cached provider and the materialized wallet pair. -/
structure W3State where
  mnemonic : Option String
  network : String
  rpcPort : String
  balance : String
  numberOfWallets : Nat
  provider : Option RpcProvider
  bip44Wallet : Option (List WalletAccount × List String)
  deriving DecidableEq, Repr

/-- Private method #setProvider of Web3Wallet: switch on the uppercased
network field and write the provider field.  The GANACHE_CORE branch carries
the same dead addresses === [] guard as src/src (meant to cache a null
provider); GANACHE uses the instance rpcPort; the default branch builds an
Alchemy provider from the instance network and its environment key. -/
def w3SetProviderFn (env : EnvMap) (st : W3State) (addresses : List String) :
    Except String W3State :=
  let subject := toUpperCase st.network
  if subject = "GANACHE" then
    .ok { st with provider := some (.jsonRpc ("http://127.0.0.1:" ++ st.rpcPort)) }
  else if subject = "GANACHE_CORE" then
    if jsStrictEqFreshArrayLiteral addresses then .ok { st with provider := none }
    else
      match ganacheAccountsOf (parseEther st.balance) addresses with
      | .error e => .error e
      | .ok accounts => .ok { st with provider := some (.ganacheCore accounts) }
  else
    .ok { st with provider := some (.alchemy (toLowerCase st.network) (alchemyApiKey env st.network)) }

/-- The for-loop of Web3Wallet#getBIP44Wallet, threading the instance state
(whose provider field the first iteration may set) next to the local account
and balance arrays. -/
def w3LoopGo (lib : WalletLib) (env : EnvMap) :
    Nat → Nat → W3State → List WalletAccount → List String →
    Except String (W3State × List WalletAccount × List String)
  | 0, _, st, w, b => .ok (st, w, b)
  | k + 1, i, st, w, b =>
    match fromMnemonicJS lib st.mnemonic (bip44Path i) with
    | .error e => .error e
    | .ok pk =>
      match (match st.provider with
             | none => w3SetProviderFn env st [pk.drop 2]
             | some _ => .ok st) with
      | .error e => .error e
      | .ok st1 =>
        match getBalanceJS lib st1.provider pk with
        | .error e => .error e
        | .ok wei =>
          w3LoopGo lib env k (i + 1) st1 (w ++ [mkWallet lib pk st1.provider])
            (b ++ [jsNumberToString (jsParseFloat (formatEther wei))])

/-- Method getBIP44Wallet of Web3Wallet: materialize numberOfWallets accounts
into the bip44Wallet field, resolving a provider on the first iteration that
finds none cached.  The source invokes this async method without awaiting it;
it is modelled as run to completion.  On an error the process exits, making
the post-exit state unobservable; the entry state accompanies the fatal
outcome. -/
def w3GetBIP44Wallet (lib : WalletLib) (env : EnvMap) (st : W3State) :
    RunResult Unit × W3State :=
  match w3LoopGo lib env st.numberOfWallets 0 st [] [] with
  | .ok (st1, w, b) => (.ok (), { st1 with bip44Wallet := some (w, b) })
  | .error e => (.fatal e, st)

/-- Setter network= of Web3Wallet: store the new network, null the cached
provider, re-materialize. -/
def w3SetNetwork (lib : WalletLib) (env : EnvMap) (st : W3State) (v : String) :
    RunResult Unit × W3State :=
  w3GetBIP44Wallet lib env { st with network := v, provider := none }

/-- Setter rpcPort= of Web3Wallet: store the new port, null the cached
provider, re-materialize. -/
def w3SetRpcPort (lib : WalletLib) (env : EnvMap) (st : W3State) (v : String) :
    RunResult Unit × W3State :=
  w3GetBIP44Wallet lib env { st with rpcPort := v, provider := none }

/-- Setter balance= of Web3Wallet: store the new balance, null the cached
provider, re-materialize. -/
def w3SetBalance (lib : WalletLib) (env : EnvMap) (st : W3State) (v : String) :
    RunResult Unit × W3State :=
  w3GetBIP44Wallet lib env { st with balance := v, provider := none }

/-- Setter numberOfWallets= of Web3Wallet: store the new count, null the
cached provider, re-materialize. -/
def w3SetNumberOfWallets (lib : WalletLib) (env : EnvMap) (st : W3State) (v : Nat) :
    RunResult Unit × W3State :=
  w3GetBIP44Wallet lib env { st with numberOfWallets := v, provider := none }

/-- Method getPrivateKeys of Web3Wallet: read the cached bip44Wallet pair and
strip 0x from every private key (destructuring an undefined pair throws). -/
def w3GetPrivateKeysFn (st : W3State) : RunResult (List String) :=
  match st.bip44Wallet with
  | none => .fatal "TypeError: bip44Wallet is undefined"
  | some (w, _) => .ok (w.map (fun a => a.privateKey.drop 2))

/-- Method getKeyPairs of Web3Wallet: read the cached bip44Wallet pair and
return the address array and the stripped private-key array. -/
def w3GetKeyPairsFn (st : W3State) : RunResult (List (List String)) :=
  match st.bip44Wallet with
  | none => .fatal "TypeError: bip44Wallet is undefined"
  | some (w, _) => .ok [w.map (fun a => a.address), w.map (fun a => a.privateKey.drop 2)]

/-- JS truthiness fallback for an optional string against an optional default
(the constructor's ?: chains; the empty string is falsy). -/
def jsOrElseStr (v : Option String) (d : Option String) : Option String :=
  match v with
  | some s => if s = "" then d else some s
  | none => d

/-- JS truthiness fallback for an optional string against a present default. -/
def jsOrStr (v : Option String) (d : String) : String :=
  match v with
  | some s => if s = "" then d else s
  | none => d

/-- JS truthiness fallback for an optional count (zero is falsy). -/
def jsOrNat (v : Option Nat) (d : Nat) : Nat :=
  match v with
  | some 0 => d
  | some k => k
  | none => d

/-- Constructor parameter object of Web3Wallet; absent fields are undefined. -/
structure WalletParams where
  mnemonic : Option String
  network : Option String
  rpcPort : Option String
  balance : Option String
  numberOfWallets : Option Nat
  deriving DecidableEq, Repr

/-- Web3Wallet constructor with an explicit parameter object (the no-argument
call is this object pre-filled with the environment and config defaults):
fields fall back through JS truthiness to process.env.MNEMONIC,
DEFAULT_NETWORK, RPC_PORT.GANACHE, '100' and 10, and the constructor
immediately materializes. -/
def w3New (lib : WalletLib) (env : EnvMap) (cfg : AppConfig) (p : WalletParams) :
    RunResult Unit × W3State :=
  w3GetBIP44Wallet lib env
    { mnemonic := jsOrElseStr p.mnemonic (env "MNEMONIC")
      network := jsOrStr p.network cfg.DEFAULT_NETWORK
      rpcPort := jsOrStr p.rpcPort cfg.RPC_PORT_GANACHE
      balance := jsOrStr p.balance "100"
      numberOfWallets := jsOrNat p.numberOfWallets 10
      provider := none
      bip44Wallet := none }

lemma digitsToNat_append_singleton (l : List Char) (c : Char) :
    digitsToNat (l ++ [c]) = 10 * digitsToNat l + (c.toNat - 48) := by
  simp [digitsToNat, List.foldl_append]

lemma digitChar10_toNat (d : Nat) (h : d < 10) : (digitChar10 d).toNat - 48 = d := by
  interval_cases d <;> decide

lemma digitChar10_isDigit (d : Nat) : (digitChar10 d).isDigit = true := by
  unfold digitChar10
  split <;> decide

lemma digitChar10_ne_dot (d : Nat) : digitChar10 d ≠ '.' := by
  unfold digitChar10
  split <;> decide

lemma natToDigitsRevAux_mem (fuel n : Nat) (c : Char) (hc : c ∈ natToDigitsRevAux fuel n) :
    c.isDigit = true ∧ c ≠ '.' := by
  induction fuel generalizing n with
  | zero => simp [natToDigitsRevAux] at hc
  | succ fuel ih =>
    by_cases hn : n = 0
    · simp [natToDigitsRevAux, hn] at hc
    · rw [natToDigitsRevAux, if_neg hn] at hc
      rcases List.mem_cons.mp hc with h | h
      · exact h ▸ ⟨digitChar10_isDigit _, digitChar10_ne_dot _⟩
      · exact ih _ h

lemma digitsToNat_natToDigitsRevAux (fuel : Nat) :
    ∀ n, n ≤ fuel → digitsToNat ((natToDigitsRevAux fuel n).reverse) = n := by
  induction fuel with
  | zero => intro n hn; interval_cases n; simp [natToDigitsRevAux, digitsToNat]
  | succ fuel ih =>
    intro n hn
    by_cases hn0 : n = 0
    · simp [natToDigitsRevAux, hn0, digitsToNat]
    · rw [natToDigitsRevAux, if_neg hn0, List.reverse_cons, digitsToNat_append_singleton]
      have hdiv : n / 10 < n := Nat.div_lt_self (Nat.pos_of_ne_zero hn0) (by omega)
      rw [ih (n / 10) (by omega), digitChar10_toNat (n % 10) (Nat.mod_lt n (by omega))]
      omega

lemma digitsToNat_natToDecimalList (n : Nat) : digitsToNat (natToDecimalList n) = n := by
  by_cases hn : n = 0
  · simp [natToDecimalList, hn, digitsToNat]
  · rw [natToDecimalList, if_neg hn]
    exact digitsToNat_natToDigitsRevAux n n le_rfl

lemma natToDecimalList_ne_nil (n : Nat) : natToDecimalList n ≠ [] := by
  by_cases hn : n = 0
  · simp [natToDecimalList, hn]
  · rw [natToDecimalList, if_neg hn]
    intro h
    rw [List.reverse_eq_nil_iff] at h
    rcases n with _ | m
    · exact hn rfl
    · rw [natToDigitsRevAux, if_neg hn] at h
      exact List.cons_ne_nil _ _ h

lemma natToDecimalList_mem (n : Nat) (c : Char) (hc : c ∈ natToDecimalList n) :
    c.isDigit = true ∧ c ≠ '.' := by
  by_cases hn : n = 0
  · simp [natToDecimalList, hn] at hc
    exact hc ▸ ⟨by decide, by decide⟩
  · rw [natToDecimalList, if_neg hn, List.mem_reverse] at hc
    exact natToDigitsRevAux_mem n n c hc

lemma splitOnDotAux_no_dot (l : List Char) :
    ∀ acc, (∀ c ∈ l, c ≠ '.') → splitOnDotAux l acc = [acc.reverse ++ l] := by
  induction l with
  | nil => intro acc _; simp [splitOnDotAux]
  | cons c rest ih =>
    intro acc h
    have hc : c ≠ '.' := h c (List.mem_cons_self c rest)
    rw [splitOnDotAux, if_neg hc, ih (c :: acc) (fun x hx => h x (List.mem_cons_of_mem c hx))]
    simp

lemma splitOnDotAux_one_dot (l m : List Char) :
    ∀ acc, (∀ c ∈ l, c ≠ '.') → (∀ c ∈ m, c ≠ '.') →
    splitOnDotAux (l ++ '.' :: m) acc = [acc.reverse ++ l, m] := by
  induction l with
  | nil =>
    intro acc _ hm
    rw [List.nil_append, splitOnDotAux, if_pos rfl, splitOnDotAux_no_dot m [] hm]
    simp
  | cons c rest ih =>
    intro acc h hm
    have hc : c ≠ '.' := h c (List.mem_cons_self c rest)
    rw [List.cons_append, splitOnDotAux, if_neg hc,
      ih (c :: acc) (fun x hx => h x (List.mem_cons_of_mem c hx)) hm]
    simp

lemma parseEther_natToDecimal (k : Nat) :
    parseEther (natToDecimal k) = .ok (k * 10 ^ 18) := by
  have hdata : (natToDecimal k).data = natToDecimalList k := rfl
  rw [parseEther]
  simp only [hdata]
  rw [if_neg (by simpa using natToDecimalList_ne_nil k)]
  have hall : (natToDecimalList k).all (fun c => c.isDigit || c = '.') = true := by
    rw [List.all_eq_true]
    intro c hc
    simp [(natToDecimalList_mem k c hc).1]
  rw [if_neg (by simp [hall])]
  rw [splitOnDotAux_no_dot (natToDecimalList k) [] (fun c hc => (natToDecimalList_mem k c hc).2)]
  simp [digitsToNat_natToDecimalList]

lemma dropWhile_replicate_zero (n : Nat) :
    List.dropWhile (fun c => c = '0') (List.replicate n '0') = [] := by
  induction n with
  | zero => simp
  | succ n ih => simp [List.replicate_succ, List.dropWhile, ih]

lemma formatEther_int (k : Nat) :
    formatEther (k * 10 ^ 18) = String.mk (natToDecimalList k ++ ['.', '0']) := by
  rw [formatEther]
  have hdiv : k * 10 ^ 18 / 10 ^ 18 = k := Nat.mul_div_cancel k (by positivity)
  have hmod : k * 10 ^ 18 % 10 ^ 18 = 0 := Nat.mul_mod_left k (10 ^ 18)
  rw [hdiv, hmod]
  have h0 : natToDecimalList 0 = ['0'] := rfl
  rw [h0]
  have hrep : List.replicate (18 - (['0'] : List Char).length) '0' ++ ['0'] =
      List.replicate 18 '0' := by
    rw [show (18 - (['0'] : List Char).length) = 17 from rfl, ← List.replicate_succ' 17 '0']
  rw [hrep]
  have hdrop : dropTrailingZeros (List.replicate 18 '0') = [] := by
    rw [dropTrailingZeros, List.reverse_replicate, dropWhile_replicate_zero]
    rfl
  rw [hdrop, if_pos rfl]

lemma jsParseFloat_int (k : Nat) :
    jsParseFloat (String.mk (natToDecimalList k ++ ['.', '0'])) = (k : ℚ) := by
  rw [jsParseFloat]
  have hdata : (String.mk (natToDecimalList k ++ ['.', '0'])).data =
      natToDecimalList k ++ '.' :: ['0'] := rfl
  simp only [hdata]
  rw [splitOnDotAux_one_dot (natToDecimalList k) ['0'] []
    (fun c hc => (natToDecimalList_mem k c hc).2) (by intro c hc; simp at hc; simp [hc])]
  simp only [List.reverse_nil, List.nil_append]
  rw [digitsToNat_natToDecimalList]
  have hz : digitsToNat ['0'] = 0 := rfl
  rw [hz]
  have hlen : (['0'] : List Char).length = 1 := rfl
  rw [hlen]
  rw [Rat.mkRat_eq_div]
  push_cast
  field_simp

lemma jsNumberToString_natCast (k : Nat) : jsNumberToString (k : ℚ) = natToDecimal k := by
  rw [jsNumberToString, if_pos (Rat.den_natCast k)]
  rw [Rat.num_natCast]
  rw [if_neg (by omega)]
  simp [Int.natAbs_ofNat]

lemma balanceRoundTrip (k : Nat) :
    jsNumberToString (jsParseFloat (formatEther (k * 10 ^ 18))) = natToDecimal k := by
  rw [formatEther_int, jsParseFloat_int, jsNumberToString_natCast]

lemma upChar_idem (c : Char) : upChar (upChar c) = upChar c := by
  by_cases h : 97 ≤ c.toNat ∧ c.toNat ≤ 122
  · have hc : upChar c = Char.ofNat (c.toNat - 32) := by rw [upChar, if_pos h]
    rw [hc]
    obtain ⟨h1, h2⟩ := h
    set t := c.toNat with ht
    interval_cases t <;> decide
  · have hc : upChar c = c := by rw [upChar, if_neg h]
    rw [hc]
    exact hc

lemma toUpperCase_idem (s : String) : toUpperCase (toUpperCase s) = toUpperCase s := by
  simp only [toUpperCase]
  rw [List.map_map]
  congr 1
  exact List.map_congr_left (fun c _ => by simp only [Function.comp_apply]; exact upChar_idem c)

lemma rootLoopGo_shape (lib : WalletLib) (env : EnvMap) (cfg : AppConfig) (N : String)
    (M : Option String) :
    ∀ (k i : Nat) (s s' : RootLoop), rootLoopGo lib env cfg N M k i s = .ok s' →
    ∃ tw tb, s'.wallet = s.wallet ++ tw ∧ s'.balances = s.balances ++ tb ∧
      tw.length = k ∧ tb.length = k := by
  intro k
  induction k with
  | zero =>
    intro i s s' h
    rw [rootLoopGo] at h
    cases h
    exact ⟨[], [], by simp, by simp, rfl, rfl⟩
  | succ k ih =>
    intro i s s' h
    rw [rootLoopGo] at h
    rcases hfm : fromMnemonicJS lib M (bip44Path i) with e | pk
    · simp only [hfm] at h; cases h
    · simp only [hfm] at h
      rcases hp : s.provider with _ | p
      · simp only [hp] at h
        rcases hgp : rootGetProvider env cfg N (some N) [pk.drop 2] s.balance with e | p
        · simp only [hgp] at h; cases h
        · simp only [hgp] at h
          rcases hwei : getBalanceJS lib (some p) pk with e | wei
          · simp only [hwei] at h; cases h
          · simp only [hwei] at h
            obtain ⟨tw, tb, hw, hb, hlw, hlb⟩ := ih (i + 1) _ s' h
            refine ⟨mkWallet lib pk (some p) :: tw,
              jsParseFloat (formatEther wei) :: tb, ?_, ?_, by simp [hlw], by simp [hlb]⟩
            · rw [hw]; simp [rootLoopPush]
            · rw [hb]; simp [rootLoopPush]
      · simp only [hp] at h
        rcases hwei : getBalanceJS lib (some p) pk with e | wei
        · simp only [hwei] at h; cases h
        · simp only [hwei] at h
          obtain ⟨tw, tb, hw, hb, hlw, hlb⟩ := ih (i + 1) _ s' h
          refine ⟨mkWallet lib pk (some p) :: tw,
            jsParseFloat (formatEther wei) :: tb, ?_, ?_, by simp [hlw], by simp [hlb]⟩
          · rw [hw]; simp [rootLoopPush]
          · rw [hb]; simp [rootLoopPush]

lemma rootLoopGo_elements (lib : WalletLib) (env : EnvMap) (cfg : AppConfig) (N : String)
    (M : Option String) :
    ∀ (k i : Nat) (s s' : RootLoop), rootLoopGo lib env cfg N M k i s = .ok s' →
    ∀ j, j < k → ∃ pk p, fromMnemonicJS lib M (bip44Path (i + j)) = .ok pk ∧
      s'.wallet[s.wallet.length + j]? = some (mkWallet lib pk (some p)) := by
  intro k
  induction k with
  | zero => intro i s s' h j hj; omega
  | succ k ih =>
    intro i s s' h j hj
    rw [rootLoopGo] at h
    rcases hfm : fromMnemonicJS lib M (bip44Path i) with e | pk
    · simp only [hfm] at h; cases h
    · simp only [hfm] at h
      rcases hp : s.provider with _ | p
      · simp only [hp] at h
        rcases hgp : rootGetProvider env cfg N (some N) [pk.drop 2] s.balance with e | p
        · simp only [hgp] at h; cases h
        · simp only [hgp] at h
          rcases hwei : getBalanceJS lib (some p) pk with e | wei
          · simp only [hwei] at h; cases h
          · simp only [hwei] at h
            cases j with
            | zero =>
              obtain ⟨tw, tb, hw, hb, hlw, hlb⟩ :=
                rootLoopGo_shape lib env cfg N M k (i + 1) _ s' h
              refine ⟨pk, p, by simpa using hfm, ?_⟩
              rw [hw]
              simp only [rootLoopPush, Nat.add_zero]
              rw [List.getElem?_append_left (by simp)]
              exact List.getElem?_concat_length _ _
            | succ j' =>
              obtain ⟨pk', p', hfm', hget⟩ := ih (i + 1) _ s' h j' (by omega)
              refine ⟨pk', p', ?_, ?_⟩
              · have harith : i + 1 + j' = i + (j' + 1) := by omega
                rwa [harith] at hfm'
              · simp only [rootLoopPush, List.length_append, List.length_singleton] at hget
                have harith : s.wallet.length + 1 + j' = s.wallet.length + (j' + 1) := by omega
                rwa [harith] at hget
      · simp only [hp] at h
        rcases hwei : getBalanceJS lib (some p) pk with e | wei
        · simp only [hwei] at h; cases h
        · simp only [hwei] at h
          cases j with
          | zero =>
            obtain ⟨tw, tb, hw, hb, hlw, hlb⟩ :=
              rootLoopGo_shape lib env cfg N M k (i + 1) _ s' h
            refine ⟨pk, p, by simpa using hfm, ?_⟩
            rw [hw]
            simp only [rootLoopPush, Nat.add_zero]
            rw [List.getElem?_append_left (by simp)]
            exact List.getElem?_concat_length _ _
          | succ j' =>
            obtain ⟨pk', p', hfm', hget⟩ := ih (i + 1) _ s' h j' (by omega)
            refine ⟨pk', p', ?_, ?_⟩
            · have harith : i + 1 + j' = i + (j' + 1) := by omega
              rwa [harith] at hfm'
            · simp only [rootLoopPush, List.length_append, List.length_singleton] at hget
              have harith : s.wallet.length + 1 + j' = s.wallet.length + (j' + 1) := by omega
              rwa [harith] at hget

lemma rootLoopGo_provider_persist (lib : WalletLib) (env : EnvMap) (cfg : AppConfig)
    (N : String) (M : Option String) :
    ∀ (k i : Nat) (s s' : RootLoop) (p : RpcProvider), s.provider = some p →
    rootLoopGo lib env cfg N M k i s = .ok s' →
    s'.provider = some p ∧ s'.resolveCount = s.resolveCount ∧
      ∀ a ∈ s'.wallet, a ∈ s.wallet ∨ a.provider = some p := by
  intro k
  induction k with
  | zero =>
    intro i s s' p hp h
    rw [rootLoopGo] at h
    cases h
    exact ⟨hp, rfl, fun a ha => Or.inl ha⟩
  | succ k ih =>
    intro i s s' p hp h
    rw [rootLoopGo] at h
    rcases hfm : fromMnemonicJS lib M (bip44Path i) with e | pk
    · simp only [hfm] at h; cases h
    · simp only [hfm] at h
      rw [hp] at h
      simp only at h
      rcases hwei : getBalanceJS lib (some p) pk with e | wei
      · simp only [hwei] at h; cases h
      · simp only [hwei] at h
        obtain ⟨h1, h2, h3⟩ := ih (i + 1) _ s' p (by simp [rootLoopPush, hp]) h
        refine ⟨h1, by simpa [rootLoopPush] using h2, fun a ha => ?_⟩
        rcases h3 a ha with hmem | hprov
        · simp only [rootLoopPush] at hmem
          rcases List.mem_append.mp hmem with hl | hr
          · exact Or.inl hl
          · simp only [List.mem_singleton] at hr
            exact Or.inr (by rw [hr]; rfl)
        · exact Or.inr hprov

lemma rootLoopGo_resolve_once (lib : WalletLib) (env : EnvMap) (cfg : AppConfig)
    (N : String) (M : Option String) (k i : Nat) (s s' : RootLoop)
    (hp : s.provider = none) (hk : 0 < k)
    (h : rootLoopGo lib env cfg N M k i s = .ok s') :
    ∃ pk p, fromMnemonicJS lib M (bip44Path i) = .ok pk ∧
      rootGetProvider env cfg N (some N) [pk.drop 2] s.balance = .ok p ∧
      s'.provider = some p ∧ s'.resolveCount = s.resolveCount + 1 ∧
      ∀ a ∈ s'.wallet, a ∈ s.wallet ∨ a.provider = some p := by
  rcases k with _ | k
  · omega
  · rw [rootLoopGo] at h
    rcases hfm : fromMnemonicJS lib M (bip44Path i) with e | pk
    · simp only [hfm] at h; cases h
    · simp only [hfm] at h
      rw [hp] at h
      simp only at h
      rcases hgp : rootGetProvider env cfg N (some N) [pk.drop 2] s.balance with e | p
      · simp only [hgp] at h; cases h
      · simp only [hgp] at h
        rcases hwei : getBalanceJS lib (some p) pk with e | wei
        · simp only [hwei] at h; cases h
        · simp only [hwei] at h
          obtain ⟨h1, h2, h3⟩ := rootLoopGo_provider_persist lib env cfg N M k (i + 1) _ s' p
            (by simp [rootLoopPush]) h
          refine ⟨pk, p, rfl, hgp, h1, by simpa [rootLoopPush] using h2, fun a ha => ?_⟩
          rcases h3 a ha with hmem | hprov
          · simp only [rootLoopPush] at hmem
            rcases List.mem_append.mp hmem with hl | hr
            · exact Or.inl hl
            · simp only [List.mem_singleton] at hr
              exact Or.inr (by rw [hr]; rfl)
          · exact Or.inr hprov

lemma srcLoopGo_shape (lib : WalletLib) (env : EnvMap) (cfg : AppConfig) (N : String)
    (M : Option String) :
    ∀ (k i : Nat) (s s' : SrcLoop), srcLoopGo lib env cfg N M k i s = .ok s' →
    ∃ tw tb, s'.wallet = s.wallet ++ tw ∧ s'.balances = s.balances ++ tb ∧
      tw.length = k ∧ tb.length = k := by
  intro k
  induction k with
  | zero =>
    intro i s s' h
    rw [srcLoopGo] at h
    cases h
    exact ⟨[], [], by simp, by simp, rfl, rfl⟩
  | succ k ih =>
    intro i s s' h
    rw [srcLoopGo] at h
    rcases hfm : fromMnemonicJS lib M (bip44Path i) with e | pk
    · simp only [hfm] at h; cases h
    · simp only [hfm] at h
      rcases hp : s.provider with _ | p
      · simp only [hp] at h
        rcases hgp : srcGetProvider env cfg N [pk.drop 2] (some N) s.balance with e | pOpt
        · simp only [hgp] at h; cases h
        · simp only [hgp] at h
          rcases hwei : getBalanceJS lib pOpt pk with e | wei
          · simp only [hwei] at h; cases h
          · simp only [hwei] at h
            obtain ⟨tw, tb, hw, hb, hlw, hlb⟩ := ih (i + 1) _ s' h
            refine ⟨mkWallet lib pk pOpt :: tw,
              jsNumberToString (jsParseFloat (formatEther wei)) :: tb,
              ?_, ?_, by simp [hlw], by simp [hlb]⟩
            · rw [hw]; simp [srcLoopPush]
            · rw [hb]; simp [srcLoopPush]
      · simp only [hp] at h
        rcases hwei : getBalanceJS lib (some p) pk with e | wei
        · simp only [hwei] at h; cases h
        · simp only [hwei] at h
          obtain ⟨tw, tb, hw, hb, hlw, hlb⟩ := ih (i + 1) _ s' h
          refine ⟨mkWallet lib pk (some p) :: tw,
            jsNumberToString (jsParseFloat (formatEther wei)) :: tb,
            ?_, ?_, by simp [hlw], by simp [hlb]⟩
          · rw [hw]; simp [srcLoopPush]
          · rw [hb]; simp [srcLoopPush]

lemma srcLoopGo_elements (lib : WalletLib) (env : EnvMap) (cfg : AppConfig) (N : String)
    (M : Option String) :
    ∀ (k i : Nat) (s s' : SrcLoop), srcLoopGo lib env cfg N M k i s = .ok s' →
    ∀ j, j < k → ∃ pk pOpt, fromMnemonicJS lib M (bip44Path (i + j)) = .ok pk ∧
      s'.wallet[s.wallet.length + j]? = some (mkWallet lib pk pOpt) := by
  intro k
  induction k with
  | zero => intro i s s' h j hj; omega
  | succ k ih =>
    intro i s s' h j hj
    rw [srcLoopGo] at h
    rcases hfm : fromMnemonicJS lib M (bip44Path i) with e | pk
    · simp only [hfm] at h; cases h
    · simp only [hfm] at h
      rcases hp : s.provider with _ | p
      · simp only [hp] at h
        rcases hgp : srcGetProvider env cfg N [pk.drop 2] (some N) s.balance with e | pOpt
        · simp only [hgp] at h; cases h
        · simp only [hgp] at h
          rcases hwei : getBalanceJS lib pOpt pk with e | wei
          · simp only [hwei] at h; cases h
          · simp only [hwei] at h
            cases j with
            | zero =>
              obtain ⟨tw, tb, hw, hb, hlw, hlb⟩ :=
                srcLoopGo_shape lib env cfg N M k (i + 1) _ s' h
              refine ⟨pk, pOpt, by simpa using hfm, ?_⟩
              rw [hw]
              simp only [srcLoopPush, Nat.add_zero]
              rw [List.getElem?_append_left (by simp)]
              exact List.getElem?_concat_length _ _
            | succ j' =>
              obtain ⟨pk', p', hfm', hget⟩ := ih (i + 1) _ s' h j' (by omega)
              refine ⟨pk', p', ?_, ?_⟩
              · have harith : i + 1 + j' = i + (j' + 1) := by omega
                rwa [harith] at hfm'
              · simp only [srcLoopPush, List.length_append, List.length_singleton] at hget
                have harith : s.wallet.length + 1 + j' = s.wallet.length + (j' + 1) := by omega
                rwa [harith] at hget
      · simp only [hp] at h
        rcases hwei : getBalanceJS lib (some p) pk with e | wei
        · simp only [hwei] at h; cases h
        · simp only [hwei] at h
          cases j with
          | zero =>
            obtain ⟨tw, tb, hw, hb, hlw, hlb⟩ :=
              srcLoopGo_shape lib env cfg N M k (i + 1) _ s' h
            refine ⟨pk, some p, by simpa using hfm, ?_⟩
            rw [hw]
            simp only [srcLoopPush, Nat.add_zero]
            rw [List.getElem?_append_left (by simp)]
            exact List.getElem?_concat_length _ _
          | succ j' =>
            obtain ⟨pk', p', hfm', hget⟩ := ih (i + 1) _ s' h j' (by omega)
            refine ⟨pk', p', ?_, ?_⟩
            · have harith : i + 1 + j' = i + (j' + 1) := by omega
              rwa [harith] at hfm'
            · simp only [srcLoopPush, List.length_append, List.length_singleton] at hget
              have harith : s.wallet.length + 1 + j' = s.wallet.length + (j' + 1) := by omega
              rwa [harith] at hget

lemma w3SetProviderFn_ok (env : EnvMap) (st st1 : W3State) (addrs : List String)
    (h : w3SetProviderFn env st addrs = .ok st1) :
    ∃ pOpt, st1 = { st with provider := pOpt } := by
  rw [w3SetProviderFn] at h
  simp only [jsStrictEqFreshArrayLiteral, Bool.false_eq_true, if_false] at h
  split_ifs at h
  · cases h; exact ⟨_, rfl⟩
  · rcases hacc : ganacheAccountsOf (parseEther st.balance) addrs with e | accs
    · rw [hacc] at h; cases h
    · rw [hacc] at h; cases h; exact ⟨_, rfl⟩
  · cases h; exact ⟨_, rfl⟩

lemma w3LoopGo_shape (lib : WalletLib) (env : EnvMap) :
    ∀ (k i : Nat) (st : W3State) (w : List WalletAccount) (b : List String)
      (out : W3State × List WalletAccount × List String),
    w3LoopGo lib env k i st w b = .ok out →
    out.1.mnemonic = st.mnemonic ∧ out.1.network = st.network ∧
      out.1.rpcPort = st.rpcPort ∧ out.1.balance = st.balance ∧
      out.1.numberOfWallets = st.numberOfWallets ∧ out.1.bip44Wallet = st.bip44Wallet ∧
      ∃ tw tb, out.2.1 = w ++ tw ∧ out.2.2 = b ++ tb ∧ tw.length = k ∧ tb.length = k := by
  intro k
  induction k with
  | zero =>
    intro i st w b out h
    rw [w3LoopGo] at h
    cases h
    exact ⟨rfl, rfl, rfl, rfl, rfl, rfl, [], [], by simp, by simp, rfl, rfl⟩
  | succ k ih =>
    intro i st w b out h
    rw [w3LoopGo] at h
    rcases hfm : fromMnemonicJS lib st.mnemonic (bip44Path i) with e | pk
    · simp only [hfm] at h; cases h
    · simp only [hfm] at h
      rcases hp : st.provider with _ | p
      · simp only [hp] at h
        rcases hsp : w3SetProviderFn env st [pk.drop 2] with e | st1
        · simp only [hsp] at h; cases h
        · simp only [hsp] at h
          rcases hwei : getBalanceJS lib st1.provider pk with e | wei
          · simp only [hwei] at h; cases h
          · simp only [hwei] at h
            obtain ⟨hm, hn, hr, hb1, hc, hbw, tw, tb, hw, hbs, hlw, hlb⟩ :=
              ih (i + 1) st1 _ _ out h
            obtain ⟨pOpt, hst1⟩ := w3SetProviderFn_ok env st st1 [pk.drop 2] hsp
            refine ⟨by rw [hm, hst1], by rw [hn, hst1], by rw [hr, hst1],
              by rw [hb1, hst1], by rw [hc, hst1], by rw [hbw, hst1],
              mkWallet lib pk st1.provider :: tw,
              jsNumberToString (jsParseFloat (formatEther wei)) :: tb, ?_, ?_,
              by simp [hlw], by simp [hlb]⟩
            · rw [hw]; simp
            · rw [hbs]; simp
      · simp only [hp] at h
        rcases hwei : getBalanceJS lib st.provider pk with e | wei
        · rw [hp] at hwei; simp only [hwei] at h; cases h
        · rw [hp] at hwei; simp only [hwei] at h
          obtain ⟨hm, hn, hr, hb1, hc, hbw, tw, tb, hw, hbs, hlw, hlb⟩ :=
            ih (i + 1) st _ _ out h
          refine ⟨hm, hn, hr, hb1, hc, hbw,
            mkWallet lib pk st.provider :: tw,
            jsNumberToString (jsParseFloat (formatEther wei)) :: tb, ?_, ?_,
            by simp [hlw], by simp [hlb]⟩
          · rw [hw, hp]; simp
          · rw [hbs]; simp

lemma w3LoopGo_elements (lib : WalletLib) (env : EnvMap) :
    ∀ (k i : Nat) (st : W3State) (w : List WalletAccount) (b : List String)
      (out : W3State × List WalletAccount × List String),
    w3LoopGo lib env k i st w b = .ok out →
    ∀ j, j < k → ∃ pk pOpt, fromMnemonicJS lib st.mnemonic (bip44Path (i + j)) = .ok pk ∧
      out.2.1[w.length + j]? = some (mkWallet lib pk pOpt) := by
  intro k
  induction k with
  | zero => intro i st w b out h j hj; omega
  | succ k ih =>
    intro i st w b out h j hj
    rw [w3LoopGo] at h
    rcases hfm : fromMnemonicJS lib st.mnemonic (bip44Path i) with e | pk
    · simp only [hfm] at h; cases h
    · simp only [hfm] at h
      rcases hp : st.provider with _ | p
      · simp only [hp] at h
        rcases hsp : w3SetProviderFn env st [pk.drop 2] with e | st1
        · simp only [hsp] at h; cases h
        · simp only [hsp] at h
          rcases hwei : getBalanceJS lib st1.provider pk with e | wei
          · simp only [hwei] at h; cases h
          · simp only [hwei] at h
            obtain ⟨pOpt1, hst1⟩ := w3SetProviderFn_ok env st st1 [pk.drop 2] hsp
            cases j with
            | zero =>
              obtain ⟨_, _, _, _, _, _, tw, tb, hw, hbs, hlw, hlb⟩ :=
                w3LoopGo_shape lib env k (i + 1) st1 _ _ out h
              refine ⟨pk, st1.provider, by simpa using hfm, ?_⟩
              rw [hw]
              simp only [Nat.add_zero]
              rw [List.getElem?_append_left (by simp)]
              exact List.getElem?_concat_length _ _
            | succ j' =>
              obtain ⟨pk', p', hfm', hget⟩ := ih (i + 1) st1 _ _ out h j' (by omega)
              refine ⟨pk', p', ?_, ?_⟩
              · have hmn : st1.mnemonic = st.mnemonic := by rw [hst1]
                rw [hmn] at hfm'
                have harith : i + 1 + j' = i + (j' + 1) := by omega
                rwa [harith] at hfm'
              · simp only [List.length_append, List.length_singleton] at hget
                have harith : w.length + 1 + j' = w.length + (j' + 1) := by omega
                rwa [harith] at hget
      · simp only [hp] at h
        rcases hwei : getBalanceJS lib st.provider pk with e | wei
        · rw [hp] at hwei; simp only [hwei] at h; cases h
        · rw [hp] at hwei; simp only [hwei] at h
          cases j with
          | zero =>
            obtain ⟨_, _, _, _, _, _, tw, tb, hw, hbs, hlw, hlb⟩ :=
              w3LoopGo_shape lib env k (i + 1) st _ _ out h
            refine ⟨pk, st.provider, by simpa using hfm, ?_⟩
            rw [hw, hp]
            simp only [Nat.add_zero]
            rw [List.getElem?_append_left (by simp)]
            exact List.getElem?_concat_length _ _
          | succ j' =>
            obtain ⟨pk', p', hfm', hget⟩ := ih (i + 1) st _ _ out h j' (by omega)
            refine ⟨pk', p', ?_, ?_⟩
            · have harith : i + 1 + j' = i + (j' + 1) := by omega
              rwa [harith] at hfm'
            · simp only [List.length_append, List.length_singleton] at hget
              have harith : w.length + 1 + j' = w.length + (j' + 1) := by omega
              rwa [harith] at hget

/-- Environment with every variable unset, for concrete evaluations. -/
def envNone : EnvMap := fun _ => none

/-- Concrete configuration values for evaluations. -/
def witCfg : AppConfig := { DEFAULT_NETWORK := "GANACHE", RPC_PORT_GANACHE := "8545" }

/-- Concrete external-library oracle for evaluations: derivation returns the
path prefixed with 0x, the address prefixes the key, every balance query
returns 100 ether in wei. -/
def witLib : WalletLib :=
  { fromMnemonic := fun _ p => .ok ("0x" ++ p)
    keyToAddress := fun pk => "addr " ++ pk
    getBalance := fun _ _ => .ok (100 * 10 ^ 18) }

/-- Environment holding only a mnemonic, for concrete evaluations. -/
def witEnv : EnvMap := fun v => if v = "MNEMONIC" then some "test words" else none

/-- C10: with numberOfWallets = 0 the root getBIP44Wallet run succeeds and
returns a pair of two empty sequences, resolving no provider (provider still
none, zero resolutions), deriving no key (zero derivations) and raising no
error, for every library, environment, configuration, entry state, network
and balance argument. -/
theorem c10_zero_wallets_trivial_run (lib : WalletLib) (env : EnvMap) (cfg : AppConfig)
    (st : RootState) (net bal : String) :
    rootGetBIP44WalletT lib env cfg st (some net) (some 0) (some bal) =
      (.ok { wallet := [], balances := [], provider := none, balance := .str bal,
             resolveCount := 0, deriveCount := 0 }, { NETWORK := toUpperCase net }) ∧
    rootGetBIP44Wallet lib env cfg st (some net) (some 0) (some bal) =
      (.ok ([], []), { NETWORK := toUpperCase net }) :=
  ⟨rfl, rfl⟩

/-- C3 (code evidence): calling the src/src resolver with GANACHE_CORE and an
empty seed-address list does not produce the null provider the guard in the
source intends: addresses === [] compares references against a fresh literal, hence
is always false, and the call instead constructs a ganache-core provider with
zero seeded accounts; the Web3Wallet copy of the guard behaves the same way. -/
theorem c3_empty_seed_constructs_provider :
    srcGetProvider envNone witCfg "GANACHE_CORE" [] (some "GANACHE_CORE") "100" =
      .ok (some (.ganacheCore [])) ∧
    jsStrictEqFreshArrayLiteral ([] : List String) = false ∧
    w3SetProviderFn envNone
      { mnemonic := some "m", network := "GANACHE_CORE", rpcPort := "8545", balance := "100",
        numberOfWallets := 10, provider := none, bip44Wallet := none } [] =
      .ok { mnemonic := some "m", network := "GANACHE_CORE", rpcPort := "8545", balance := "100",
            numberOfWallets := 10, provider := some (.ganacheCore []), bip44Wallet := none } :=
  ⟨rfl, rfl, rfl⟩

/-- C4 (counterexample): the root resolver called for the hosted network
RINKEBY with no ALCHEMY_RINKEBY_KEY in the environment does not fail: it
returns an Alchemy provider handle carrying an absent key, so the claimed
ConfigurationError failure does not happen. -/
theorem c4_counterexample_missing_key_returns_provider :
    rootGetProvider envNone witCfg "RINKEBY" (some "RINKEBY") [] (.str "100") =
      .ok (.alchemy "rinkeby" none) :=
  rfl

/-- C4 (amended): for every environment in which the hosted network's API-key
variable ALCHEMY_ NETWORK _KEY is absent, the root resolver does not fail
before or after any network call: it returns the Alchemy provider handle for
the lowercased module network carrying an absent key. -/
theorem c4_amended_missing_key_still_resolves (env : EnvMap) (cfg : AppConfig)
    (NETWORK : String) (addresses : List String) (balance : JsVal)
    (hkey : env ("ALCHEMY_" ++ NETWORK ++ "_KEY") = none)
    (hne : NETWORK ≠ "")
    (hg1 : toUpperCase NETWORK ≠ "GANACHE") (hg2 : toUpperCase NETWORK ≠ "GANACHE_CORE") :
    rootGetProvider env cfg NETWORK (some NETWORK) addresses balance =
      .ok (.alchemy (toLowerCase NETWORK) none) := by
  rw [rootGetProvider]
  simp only [jsSwitchNetwork, if_neg hne]
  rw [if_neg hg1, if_neg hg2]
  rw [alchemyApiKey, hkey]

/-- C4 (witness): the amended statement evaluated for RINKEBY against the
empty environment. -/
theorem c4_witness :
    rootGetProvider envNone witCfg "RINKEBY" (some "RINKEBY") [] (JsVal.str "100") =
      .ok (.alchemy (toLowerCase "RINKEBY") none) :=
  c4_amended_missing_key_still_resolves envNone witCfg "RINKEBY" [] (JsVal.str "100")
    rfl (by decide) (by decide) (by decide)

/-- C1: in every successful root materialization run with at least one wallet,
the provider is resolved exactly once — on the first iteration, where none
exists yet — every derived account is bound to that single resolved handle,
and when the uppercased network is GANACHE_CORE the simulated chain is seeded
with exactly one account: the index-0 private key (0x stripped) funded with
parseEther of the configured balance. -/
theorem c1_single_resolution_shared_provider (lib : WalletLib) (env : EnvMap)
    (cfg : AppConfig) (st : RootState) (net bal : String) (n : Nat) (hn : 0 < n)
    (s' : RootLoop) (st' : RootState)
    (hrun : rootGetBIP44WalletT lib env cfg st (some net) (some n) (some bal) = (.ok s', st')) :
    s'.resolveCount = 1 ∧
    (∃ p, s'.provider = some p ∧ ∀ a ∈ s'.wallet, a.provider = some p) ∧
    (toUpperCase net = "GANACHE_CORE" →
      ∃ pk wei, fromMnemonicJS lib (env "MNEMONIC") (bip44Path 0) = .ok pk ∧
        parseEther bal = .ok wei ∧
        s'.provider = some (.ganacheCore [{ secretKey := pk.drop 2, balance := natToDecimal wei }])) := by
  rw [rootGetBIP44WalletT] at hrun
  simp only [Option.getD] at hrun
  rcases hloop : rootLoopGo lib env cfg (toUpperCase net) (env "MNEMONIC") n 0
      { wallet := [], balances := [], provider := none, balance := .str bal,
        resolveCount := 0, deriveCount := 0 } with e | s0
  · rw [hloop] at hrun
    simp only [Prod.mk.injEq] at hrun
    cases hrun.1
  · rw [hloop] at hrun
    simp only [Prod.mk.injEq, RunResult.ok.injEq] at hrun
    obtain ⟨hs, hst⟩ := hrun
    subst hs
    obtain ⟨pk, p, hfm, hgp, hprov, hrc, hmem⟩ :=
      rootLoopGo_resolve_once lib env cfg (toUpperCase net) (env "MNEMONIC") n 0 _ s0
        rfl hn hloop
    refine ⟨by simpa using hrc, ⟨p, hprov, fun a ha => ?_⟩, fun hnet => ?_⟩
    · rcases hmem a ha with hin | hpr
      · simp at hin
      · exact hpr
    · rw [hnet] at hgp
      rw [rootGetProvider] at hgp
      have hsub : jsSwitchNetwork "GANACHE_CORE" (some "GANACHE_CORE") = "GANACHE_CORE" := rfl
      rw [hsub] at hgp
      rw [if_neg (by decide), if_pos rfl] at hgp
      simp only [parseEtherVal] at hgp
      rcases hpe : parseEther bal with e | wei
      · simp only [ganacheAccountsOf, hpe] at hgp
        cases hgp
      · simp only [ganacheAccountsOf, hpe] at hgp
        cases hgp
        exact ⟨pk, wei, hfm, rfl, hprov⟩

/-- C1 (witness): the single-resolution statement evaluated on a concrete
two-account ganache-core run. -/
theorem c1_witness :
    ∃ s' st', rootGetBIP44WalletT witLib witEnv witCfg { NETWORK := "GANACHE" }
        (some "ganache_core") (some 2) (some "100") = (.ok s', st') ∧
      s'.resolveCount = 1 ∧
      (∃ p, s'.provider = some p ∧ ∀ a ∈ s'.wallet, a.provider = some p) ∧
      (toUpperCase "ganache_core" = "GANACHE_CORE" →
        ∃ pk wei, fromMnemonicJS witLib (witEnv "MNEMONIC") (bip44Path 0) = .ok pk ∧
          parseEther "100" = .ok wei ∧
          s'.provider =
            some (.ganacheCore [{ secretKey := pk.drop 2, balance := natToDecimal wei }])) := by
  refine ⟨_, _, rfl, ?_⟩
  exact c1_single_resolution_shared_provider witLib witEnv witCfg { NETWORK := "GANACHE" }
    "ganache_core" "100" 2 (by decide) _ _ rfl

/-- Address the run would derive at index i: the address of the key derived at
the index's path (none when derivation fails).  Used to phrase the address
injectivity of the external derivation, which the spec assumes holds up to
negligible collision probability. -/
def derivedAddr (lib : WalletLib) (m : Option String) (i : Nat) : Option String :=
  match fromMnemonicJS lib m (bip44Path i) with
  | .ok pk => some (lib.keyToAddress pk)
  | .error _ => none

/-- C2: every successful root materialization with walletCount n at least one
yields exactly n accounts and exactly n balances, in index order: the i-th
account carries the private key derived at path index i, its address is the
address of that key, and — whenever the external derivation assigns distinct
addresses to distinct indices below n — all n account addresses are distinct. -/
theorem c2_materialization_shape (lib : WalletLib) (env : EnvMap) (cfg : AppConfig)
    (st : RootState) (net bal : String) (n : Nat) (hn : 1 ≤ n)
    (w : List WalletAccount) (b : List ℚ) (st' : RootState)
    (hrun : rootGetBIP44Wallet lib env cfg st (some net) (some n) (some bal) = (.ok (w, b), st'))
    (hinj : ∀ i, i < n → ∀ j, j < n →
      derivedAddr lib (env "MNEMONIC") i = derivedAddr lib (env "MNEMONIC") j → i = j) :
    w.length = n ∧ b.length = n ∧
    (∀ i, i < n → ∃ pk, fromMnemonicJS lib (env "MNEMONIC") (bip44Path i) = .ok pk ∧
      ∃ a, w[i]? = some a ∧ a.privateKey = pk ∧ a.address = lib.keyToAddress pk) ∧
    (∀ i, i < n → ∀ j, j < n → i ≠ j → ∀ ai aj, w[i]? = some ai → w[j]? = some aj →
      ai.address ≠ aj.address) := by
  rw [rootGetBIP44Wallet, rootGetBIP44WalletT] at hrun
  simp only [Option.getD] at hrun
  rcases hloop : rootLoopGo lib env cfg (toUpperCase net) (env "MNEMONIC") n 0
      { wallet := [], balances := [], provider := none, balance := .str bal,
        resolveCount := 0, deriveCount := 0 } with e | s0
  · rw [hloop] at hrun
    simp only [Prod.mk.injEq] at hrun
    cases hrun.1
  · rw [hloop] at hrun
    simp only [Prod.mk.injEq, RunResult.ok.injEq] at hrun
    obtain ⟨⟨hw, hb⟩, hst⟩ := hrun
    obtain ⟨tw, tb, hw0, hb0, hlw, hlb⟩ :=
      rootLoopGo_shape lib env cfg (toUpperCase net) (env "MNEMONIC") n 0 _ s0 hloop
    have hwl : w.length = n := by rw [← hw, hw0]; simpa using hlw
    have hbl : b.length = n := by rw [← hb, hb0]; simpa using hlb
    have helt : ∀ i, i < n → ∃ pk, fromMnemonicJS lib (env "MNEMONIC") (bip44Path i) = .ok pk ∧
        ∃ a, w[i]? = some a ∧ a.privateKey = pk ∧ a.address = lib.keyToAddress pk := by
      intro i hi
      obtain ⟨pk, p, hfm, hget⟩ :=
        rootLoopGo_elements lib env cfg (toUpperCase net) (env "MNEMONIC") n 0 _ s0 hloop i hi
      simp only [List.length_nil, Nat.zero_add] at hget
      refine ⟨pk, by simpa using hfm, mkWallet lib pk (some p), by rw [← hw]; exact hget, rfl, rfl⟩
    refine ⟨hwl, hbl, helt, fun i hi j hj hij ai aj hai haj hadd => ?_⟩
    obtain ⟨pki, hfmi, a1, ha1, hk1, had1⟩ := helt i hi
    obtain ⟨pkj, hfmj, a2, ha2, hk2, had2⟩ := helt j hj
    rw [hai] at ha1
    rw [haj] at ha2
    cases Option.some.inj ha1
    cases Option.some.inj ha2
    apply hij
    apply hinj i hi j hj
    rw [derivedAddr, derivedAddr, hfmi, hfmj]
    show some (lib.keyToAddress pki) = some (lib.keyToAddress pkj)
    rw [← had1, ← had2, hadd]

/-- C2 (witness): the shape statement evaluated on a concrete two-account run
with an address-injective concrete derivation oracle. -/
theorem c2_witness :
    ∃ w b st', rootGetBIP44Wallet witLib witEnv witCfg { NETWORK := "GANACHE" }
        (some "ganache_core") (some 2) (some "100") = (.ok (w, b), st') ∧
      w.length = 2 ∧ b.length = 2 := by
  refine ⟨_, _, _, rfl, ?_, ?_⟩
  · exact (c2_materialization_shape witLib witEnv witCfg { NETWORK := "GANACHE" }
      "ganache_core" "100" 2 (by omega) _ _ _ rfl (by decide)).1
  · exact (c2_materialization_shape witLib witEnv witCfg { NETWORK := "GANACHE" }
      "ganache_core" "100" 2 (by omega) _ _ _ rfl (by decide)).2.1

lemma rootRun_ok_shape (lib : WalletLib) (env : EnvMap) (cfg : AppConfig) (st : RootState)
    (network : Option String) (nOpt : Option Nat) (balOpt : Option String)
    (w : List WalletAccount) (b : List ℚ) (st' : RootState)
    (hrun : rootGetBIP44Wallet lib env cfg st network nOpt balOpt = (.ok (w, b), st')) :
    w.length = nOpt.getD 10 ∧ b.length = nOpt.getD 10 ∧
    ∀ i, i < nOpt.getD 10 → ∃ pk, fromMnemonicJS lib (env "MNEMONIC") (bip44Path i) = .ok pk ∧
      ∃ p, w[i]? = some (mkWallet lib pk (some p)) := by
  rw [rootGetBIP44Wallet, rootGetBIP44WalletT] at hrun
  rcases hloop : rootLoopGo lib env cfg (toUpperCase (network.getD st.NETWORK))
      (env "MNEMONIC") (nOpt.getD 10) 0
      { wallet := [], balances := [], provider := none, balance := .str (balOpt.getD "100"),
        resolveCount := 0, deriveCount := 0 } with e | s0
  · rw [hloop] at hrun
    simp only [Prod.mk.injEq] at hrun
    cases hrun.1
  · rw [hloop] at hrun
    simp only [Prod.mk.injEq, RunResult.ok.injEq] at hrun
    obtain ⟨⟨hw, hb⟩, hst⟩ := hrun
    obtain ⟨tw, tb, hw0, hb0, hlw, hlb⟩ :=
      rootLoopGo_shape lib env cfg _ (env "MNEMONIC") (nOpt.getD 10) 0 _ s0 hloop
    refine ⟨by rw [← hw, hw0]; simpa using hlw, by rw [← hb, hb0]; simpa using hlb,
      fun i hi => ?_⟩
    obtain ⟨pk, p, hfm, hget⟩ :=
      rootLoopGo_elements lib env cfg _ (env "MNEMONIC") (nOpt.getD 10) 0 _ s0 hloop i hi
    simp only [List.length_nil, Nat.zero_add] at hget
    exact ⟨pk, by simpa using hfm, p, by rw [← hw]; exact hget⟩

/-- C5: a root materialization run never returns a partial sequence — every
run either exits fatally (the error is printed and the process terminates, so
the caller observes nothing) or succeeds with exactly n accounts and exactly
n balances, and success requires the derivation at every index below n to
have succeeded. -/
theorem c5_no_partial_results (lib : WalletLib) (env : EnvMap) (cfg : AppConfig)
    (st : RootState) (net bal : String) (n : Nat) :
    (∃ e st', rootGetBIP44Wallet lib env cfg st (some net) (some n) (some bal) =
       (.fatal e, st')) ∨
    (∃ w b st', rootGetBIP44Wallet lib env cfg st (some net) (some n) (some bal) =
       (.ok (w, b), st') ∧ w.length = n ∧ b.length = n ∧
       ∀ i, i < n → ∃ pk, fromMnemonicJS lib (env "MNEMONIC") (bip44Path i) = .ok pk) := by
  rcases hres : rootGetBIP44Wallet lib env cfg st (some net) (some n) (some bal) with
    ⟨⟨w, b⟩ | e, st'⟩
  · right
    obtain ⟨h1, h2, h3⟩ := rootRun_ok_shape lib env cfg st _ _ _ w b st' hres
    exact ⟨w, b, st', rfl, h1, h2, fun i hi => (h3 i hi).imp (fun pk hpk => hpk.1)⟩
  · exact Or.inl ⟨e, st', rfl⟩

/-- C5 (witness): the dichotomy instantiated on a concrete run. -/
theorem c5_witness :
    (∃ e st', rootGetBIP44Wallet witLib witEnv witCfg { NETWORK := "GANACHE" }
       (some "ganache_core") (some 2) (some "100") = (.fatal e, st')) ∨
    (∃ w b st', rootGetBIP44Wallet witLib witEnv witCfg { NETWORK := "GANACHE" }
       (some "ganache_core") (some 2) (some "100") = (.ok (w, b), st') ∧
       w.length = 2 ∧ b.length = 2 ∧
       ∀ i, i < 2 → ∃ pk, fromMnemonicJS witLib (witEnv "MNEMONIC") (bip44Path i) = .ok pk) :=
  c5_no_partial_results witLib witEnv witCfg { NETWORK := "GANACHE" } "ganache_core" "100" 2

/-- C6: over the materialized run both extractors share, getPrivateKeys
returns exactly one string per account — the i-th being the i-th account's
private key with the leading 0x removed — and getKeyPairs returns the pair
whose second sequence is that same stripped-key sequence, index-aligned; when
the run materialized n accounts both sequences have length n. -/
theorem c6_key_extraction (lib : WalletLib) (env : EnvMap) (cfg : AppConfig)
    (st : RootState) (net : String) (n : Nat) (w : List WalletAccount) (b : List ℚ)
    (st2 : RootState)
    (hrun : rootGetBIP44Wallet lib env cfg { NETWORK := toUpperCase net }
      (some (toUpperCase net)) (some n) none = (.ok (w, b), st2)) :
    rootGetPrivateKeys lib env cfg st (some net) (some n) =
      (.ok (w.map (fun a => a.privateKey.drop 2)), st2) ∧
    rootGetKeyPairs lib env cfg st (some net) (some n) =
      (.ok [w.map (fun a => a.address), w.map (fun a => a.privateKey.drop 2)], st2) ∧
    (w.map (fun a => a.privateKey.drop 2)).length = n ∧ w.length = n ∧
    (∀ (i : Nat) (a : WalletAccount), w[i]? = some a →
      (w.map (fun a => a.privateKey.drop 2))[i]? = some (a.privateKey.drop 2)) := by
  have hlen : w.length = n := by
    simpa using (rootRun_ok_shape lib env cfg _ _ _ _ w b st2 hrun).1
  refine ⟨?_, ?_, by simpa using hlen, hlen, fun i a ha => ?_⟩
  · rw [rootGetPrivateKeys]
    simp only [Option.getD]
    rw [hrun]
  · rw [rootGetKeyPairs]
    simp only [Option.getD]
    rw [hrun]
  · rw [List.getElem?_map, ha]
    rfl

/-- C6 (witness): both extractions evaluated on a concrete two-account run. -/
theorem c6_witness :
    ∃ w : List WalletAccount, ∃ b : List ℚ, ∃ st2 : RootState,
      rootGetBIP44Wallet witLib witEnv witCfg { NETWORK := toUpperCase "ganache_core" }
        (some (toUpperCase "ganache_core")) (some 2) none = (.ok (w, b), st2) ∧
      rootGetPrivateKeys witLib witEnv witCfg { NETWORK := "GANACHE" }
        (some "ganache_core") (some 2) =
        (.ok (w.map (fun a => a.privateKey.drop 2)), st2) ∧
      (w.map (fun a => a.privateKey.drop 2)).length = 2 := by
  refine ⟨_, _, _, rfl, ?_, ?_⟩
  · exact (c6_key_extraction witLib witEnv witCfg { NETWORK := "GANACHE" }
      "ganache_core" 2 _ _ _ rfl).1
  · exact (c6_key_extraction witLib witEnv witCfg { NETWORK := "GANACHE" }
      "ganache_core" 2 _ _ _ rfl).2.2.1

/-- C7: in every successful SIMULATED_CHAIN (GANACHE_CORE) run of the src/src
materializer whose configured seedBalance is the canonical decimal numeral of
an integer k — the range where the parseFloat model is exact, scoped by
k < 2^53 — and whose simulated chain reports the funded wei amount for the
seeded index-0 account, the balance reported at index 0 is exactly the
configured seedBalance string ("100" comes back as "100"). -/
theorem c7_seed_balance_round_trip (lib : WalletLib) (env : EnvMap) (cfg : AppConfig)
    (st : SrcState) (net : String) (k n : Nat) (pk0 : String)
    (hk : k < 2 ^ 53) (hnet : toUpperCase net = "GANACHE_CORE") (hn : 0 < n)
    (hfm : fromMnemonicJS lib st.MNEMONIC (bip44Path 0) = .ok pk0)
    (hbal : lib.getBalance
      (.ganacheCore [{ secretKey := pk0.drop 2, balance := natToDecimal (k * 10 ^ 18) }]) pk0 =
      .ok (k * 10 ^ 18))
    (w : List WalletAccount) (b : List String) (st' : SrcState)
    (hrun : srcGetBIP44Wallet lib env cfg st (some net) (some n) (some (natToDecimal k)) =
      (.ok (w, b), st')) :
    b[0]? = some (natToDecimal k) := by
  have hgp : srcGetProvider env cfg (toUpperCase net) [pk0.drop 2] (some (toUpperCase net))
      (natToDecimal k) =
      .ok (some (.ganacheCore [{ secretKey := pk0.drop 2, balance := natToDecimal (k * 10 ^ 18) }])) := by
    rw [hnet, srcGetProvider]
    have hsub : jsSwitchNetwork "GANACHE_CORE" (some "GANACHE_CORE") = "GANACHE_CORE" := rfl
    rw [hsub]
    rw [if_neg (by decide), if_pos rfl]
    simp only [jsStrictEqFreshArrayLiteral, Bool.false_eq_true, if_false]
    simp only [ganacheAccountsOf, parseEther_natToDecimal]
  rw [srcGetBIP44Wallet] at hrun
  simp only [Option.getD] at hrun
  rcases n with _ | n'
  · omega
  rcases hloop : srcLoopGo lib env cfg (toUpperCase net) st.MNEMONIC (n' + 1) 0
      { wallet := [], balances := [], provider := none, balance := natToDecimal k,
        resolveCount := 0 } with e | sEnd
  · rw [hloop] at hrun
    simp only [Prod.mk.injEq] at hrun
    cases hrun.1
  · rw [hloop] at hrun
    simp only [Prod.mk.injEq, RunResult.ok.injEq] at hrun
    obtain ⟨⟨hw, hb⟩, hst⟩ := hrun
    rw [srcLoopGo] at hloop
    simp only [hfm] at hloop
    simp only [hgp] at hloop
    simp only [getBalanceJS] at hloop
    rw [hbal] at hloop
    simp only [] at hloop
    obtain ⟨tw, tb, hw1, hb1, hlw, hlb⟩ :=
      srcLoopGo_shape lib env cfg (toUpperCase net) st.MNEMONIC n' 1 _ sEnd hloop
    rw [← hb, hb1]
    simp only [srcLoopPush, List.nil_append]
    rw [balanceRoundTrip]
    simp

/-- C7 (witness): the round trip evaluated on a concrete one-account
ganache-core run with seedBalance "100". -/
theorem c7_witness :
    ∃ w b st',
      srcGetBIP44Wallet witLib witEnv witCfg
        { NETWORK := "GANACHE", MNEMONIC := some "test words" }
        (some "ganache_core") (some 1) (some (natToDecimal 100)) = (.ok (w, b), st') ∧
      b[0]? = some (natToDecimal 100) := by
  refine ⟨_, _, _, rfl, ?_⟩
  exact c7_seed_balance_round_trip witLib witEnv witCfg
    { NETWORK := "GANACHE", MNEMONIC := some "test words" } "ganache_core" 100 1
    ("0x" ++ bip44Path 0) (by norm_num) (by decide) (by omega) rfl rfl _ _ _ rfl

lemma w3Materialize_facts (lib : WalletLib) (env : EnvMap) (st0 : W3State)
    (r : RunResult Unit) (st' : W3State)
    (h : w3GetBIP44Wallet lib env st0 = (r, st')) :
    st'.mnemonic = st0.mnemonic ∧ st'.network = st0.network ∧ st'.rpcPort = st0.rpcPort ∧
    st'.balance = st0.balance ∧ st'.numberOfWallets = st0.numberOfWallets ∧
    (r = .ok () → ∃ w b, st'.bip44Wallet = some (w, b) ∧
      w.length = st0.numberOfWallets ∧ b.length = st0.numberOfWallets ∧
      ∀ j, j < st0.numberOfWallets → ∃ pk pOpt,
        fromMnemonicJS lib st0.mnemonic (bip44Path j) = .ok pk ∧
        w[j]? = some (mkWallet lib pk pOpt)) := by
  rw [w3GetBIP44Wallet] at h
  rcases hloop : w3LoopGo lib env st0.numberOfWallets 0 st0 [] [] with e | out
  · rw [hloop] at h
    simp only [Prod.mk.injEq] at h
    obtain ⟨hr, hst⟩ := h
    rw [← hst]
    exact ⟨rfl, rfl, rfl, rfl, rfl, fun hok => by rw [← hr] at hok; cases hok⟩
  · rw [hloop] at h
    simp only [Prod.mk.injEq] at h
    obtain ⟨hr, hst⟩ := h
    obtain ⟨hm, hn, hp, hb, hc, hbw, tw, tb, hw, hbs, hlw, hlb⟩ :=
      w3LoopGo_shape lib env st0.numberOfWallets 0 st0 [] [] out hloop
    rw [← hst]
    refine ⟨hm, hn, hp, hb, hc, fun _ => ⟨out.2.1, out.2.2, rfl, ?_, ?_, fun j hj => ?_⟩⟩
    · rw [hw]; simpa using hlw
    · rw [hbs]; simpa using hlb
    · obtain ⟨pk, pOpt, hfm, hget⟩ :=
        w3LoopGo_elements lib env st0.numberOfWallets 0 st0 [] [] out hloop j hj
      exact ⟨pk, pOpt, by simpa using hfm, by simpa using hget⟩

/-- C8: each of the four Web3Wallet configuration setters (network, rpcPort,
balance, numberOfWallets) discards the cached provider — the result never
depends on the previously cached handle — stores the new field value while
leaving every other configuration field unchanged, and re-materializes the
wallet set from scratch: on success the cached pair holds exactly
numberOfWallets accounts freshly derived from the current mnemonic.  The
mnemonic has no setter, so no operation can change it at all. -/
theorem c8_setters_invalidate_and_rematerialize (lib : WalletLib) (env : EnvMap)
    (st : W3State) (v : String) (vn : Nat) :
    (∀ p0, w3SetNetwork lib env { st with provider := p0 } v = w3SetNetwork lib env st v) ∧
    (∀ p0, w3SetRpcPort lib env { st with provider := p0 } v = w3SetRpcPort lib env st v) ∧
    (∀ p0, w3SetBalance lib env { st with provider := p0 } v = w3SetBalance lib env st v) ∧
    (∀ p0, w3SetNumberOfWallets lib env { st with provider := p0 } vn =
      w3SetNumberOfWallets lib env st vn) ∧
    (∀ r st', w3SetNetwork lib env st v = (r, st') →
      st'.network = v ∧ st'.mnemonic = st.mnemonic ∧ st'.rpcPort = st.rpcPort ∧
      st'.balance = st.balance ∧ st'.numberOfWallets = st.numberOfWallets ∧
      (r = .ok () → ∃ w b, st'.bip44Wallet = some (w, b) ∧
        w.length = st.numberOfWallets ∧ b.length = st.numberOfWallets ∧
        ∀ j, j < st.numberOfWallets → ∃ pk pOpt,
          fromMnemonicJS lib st.mnemonic (bip44Path j) = .ok pk ∧
          w[j]? = some (mkWallet lib pk pOpt))) ∧
    (∀ r st', w3SetRpcPort lib env st v = (r, st') →
      st'.rpcPort = v ∧ st'.mnemonic = st.mnemonic ∧ st'.network = st.network ∧
      st'.balance = st.balance ∧ st'.numberOfWallets = st.numberOfWallets ∧
      (r = .ok () → ∃ w b, st'.bip44Wallet = some (w, b) ∧
        w.length = st.numberOfWallets)) ∧
    (∀ r st', w3SetBalance lib env st v = (r, st') →
      st'.balance = v ∧ st'.mnemonic = st.mnemonic ∧ st'.network = st.network ∧
      st'.rpcPort = st.rpcPort ∧ st'.numberOfWallets = st.numberOfWallets ∧
      (r = .ok () → ∃ w b, st'.bip44Wallet = some (w, b) ∧
        w.length = st.numberOfWallets)) ∧
    (∀ r st', w3SetNumberOfWallets lib env st vn = (r, st') →
      st'.numberOfWallets = vn ∧ st'.mnemonic = st.mnemonic ∧ st'.network = st.network ∧
      st'.rpcPort = st.rpcPort ∧ st'.balance = st.balance ∧
      (r = .ok () → ∃ w b, st'.bip44Wallet = some (w, b) ∧ w.length = vn)) := by
  refine ⟨fun p0 => rfl, fun p0 => rfl, fun p0 => rfl, fun p0 => rfl, ?_, ?_, ?_, ?_⟩
  · intro r st' h
    obtain ⟨hm, hn, hp, hb, hc, hok⟩ := w3Materialize_facts lib env _ r st' h
    exact ⟨hn, hm, hp, hb, hc, fun hr => (hok hr).imp (fun w hw => hw.imp (fun b hb2 =>
      ⟨hb2.1, hb2.2.1, hb2.2.2.1, hb2.2.2.2⟩))⟩
  · intro r st' h
    obtain ⟨hm, hn, hp, hb, hc, hok⟩ := w3Materialize_facts lib env _ r st' h
    exact ⟨hp, hm, hn, hb, hc, fun hr => (hok hr).imp (fun w hw => hw.imp (fun b hb2 =>
      ⟨hb2.1, hb2.2.1⟩))⟩
  · intro r st' h
    obtain ⟨hm, hn, hp, hb, hc, hok⟩ := w3Materialize_facts lib env _ r st' h
    exact ⟨hb, hm, hn, hp, hc, fun hr => (hok hr).imp (fun w hw => hw.imp (fun b hb2 =>
      ⟨hb2.1, hb2.2.1⟩))⟩
  · intro r st' h
    obtain ⟨hm, hn, hp, hb, hc, hok⟩ := w3Materialize_facts lib env _ r st' h
    exact ⟨hc, hm, hn, hp, hb, fun hr => (hok hr).imp (fun w hw => hw.imp (fun b hb2 =>
      ⟨hb2.1, hb2.2.1⟩))⟩

/-- C8 (witness): the network setter evaluated on a concrete session holding a
stale cached provider; the new network is stored and two fresh accounts are
re-materialized. -/
theorem c8_witness :
    ∃ r st', w3SetNetwork witLib witEnv
        { mnemonic := some "test words", network := "GANACHE", rpcPort := "8545",
          balance := "100", numberOfWallets := 2, provider := some (.jsonRpc "stale"),
          bip44Wallet := none } "ganache_core" = (r, st') ∧
      st'.network = "ganache_core" ∧
      (r = .ok () → ∃ w b, st'.bip44Wallet = some (w, b) ∧ w.length = 2) := by
  refine ⟨_, _, rfl, ?_, ?_⟩
  · exact ((c8_setters_invalidate_and_rematerialize witLib witEnv
      { mnemonic := some "test words", network := "GANACHE", rpcPort := "8545",
        balance := "100", numberOfWallets := 2, provider := some (.jsonRpc "stale"),
        bip44Wallet := none } "ganache_core" 2).2.2.2.2.1 _ _ rfl).1
  · intro hr
    obtain ⟨w, b, h1, h2, h3, h4⟩ := ((c8_setters_invalidate_and_rematerialize witLib witEnv
      { mnemonic := some "test words", network := "GANACHE", rpcPort := "8545",
        balance := "100", numberOfWallets := 2, provider := some (.jsonRpc "stale"),
        bip44Wallet := none } "ganache_core" 2).2.2.2.2.1 _ _ rfl).2.2.2.2.2 hr
    exact ⟨w, b, h1, h2⟩

lemma srcRun_ok_shape (lib : WalletLib) (env : EnvMap) (cfg : AppConfig) (st : SrcState)
    (network : Option String) (nOpt : Option Nat) (balOpt : Option String)
    (w : List WalletAccount) (b : List String) (st' : SrcState)
    (hrun : srcGetBIP44Wallet lib env cfg st network nOpt balOpt = (.ok (w, b), st')) :
    w.length = nOpt.getD 10 ∧ b.length = nOpt.getD 10 ∧
    ∀ i, i < nOpt.getD 10 → ∃ pk pOpt,
      fromMnemonicJS lib st.MNEMONIC (bip44Path i) = .ok pk ∧
      w[i]? = some (mkWallet lib pk pOpt) := by
  rw [srcGetBIP44Wallet] at hrun
  rcases hloop : srcLoopGo lib env cfg (toUpperCase (network.getD st.NETWORK))
      st.MNEMONIC (nOpt.getD 10) 0
      { wallet := [], balances := [], provider := none, balance := balOpt.getD "100",
        resolveCount := 0 } with e | s0
  · rw [hloop] at hrun
    simp only [Prod.mk.injEq] at hrun
    cases hrun.1
  · rw [hloop] at hrun
    simp only [Prod.mk.injEq, RunResult.ok.injEq] at hrun
    obtain ⟨⟨hw, hb⟩, hst⟩ := hrun
    obtain ⟨tw, tb, hw0, hb0, hlw, hlb⟩ :=
      srcLoopGo_shape lib env cfg _ st.MNEMONIC (nOpt.getD 10) 0 _ s0 hloop
    refine ⟨by rw [← hw, hw0]; simpa using hlw, by rw [← hb, hb0]; simpa using hlb,
      fun i hi => ?_⟩
    obtain ⟨pk, pOpt, hfm, hget⟩ :=
      srcLoopGo_elements lib env cfg _ st.MNEMONIC (nOpt.getD 10) 0 _ s0 hloop i hi
    exact ⟨pk, pOpt, by simpa using hfm, by rw [← hw]; simpa using hget⟩

lemma srcRun_state (lib : WalletLib) (env : EnvMap) (cfg : AppConfig) (st : SrcState)
    (network : Option String) (nOpt : Option Nat) (balOpt : Option String)
    (r : RunResult (List WalletAccount × List String)) (st' : SrcState)
    (h : srcGetBIP44Wallet lib env cfg st network nOpt balOpt = (r, st')) :
    st' = { st with NETWORK := toUpperCase (network.getD st.NETWORK) } := by
  rw [srcGetBIP44Wallet] at h
  split at h
  · simp only [Prod.mk.injEq] at h
    exact h.2.symm
  · simp only [Prod.mk.injEq] at h
    exact h.2.symm

/-- C9: a src/src getKeyPairs call with an explicit mnemonic stores the
lowercased mnemonic (and the uppercased network) in the module-level mutable
state, derives the run's keys from the lowercased string, and a subsequent
call that omits the mnemonic and network parameters silently computes exactly
what passing the stored values explicitly would. -/
theorem c9_keyPairs_mutates_module_state (lib : WalletLib) (env : EnvMap) (cfg : AppConfig)
    (st : SrcState) (net m : String) (n : Nat)
    (r : RunResult (List (List String))) (st' : SrcState)
    (hrun : srcGetKeyPairs lib env cfg st (some net) (some n) (some m) = (r, st')) :
    st'.MNEMONIC = some (toLowerCase m) ∧
    st'.NETWORK = toUpperCase net ∧
    (∀ kp, r = .ok kp → ∃ addrs keys, kp = [addrs, keys] ∧ keys.length = n ∧
      ∀ i, i < n → ∃ pk, lib.fromMnemonic (toLowerCase m) (bip44Path i) = .ok pk ∧
        keys[i]? = some (pk.drop 2)) ∧
    (∀ n2, srcGetKeyPairs lib env cfg st' none (some n2) none =
      srcGetKeyPairs lib env cfg st' (some st'.NETWORK) (some n2) (some (toLowerCase m))) := by
  rw [srcGetKeyPairs] at hrun
  simp only [Option.getD] at hrun
  split at hrun
  · rename_i w bx st3 heq
    simp only [Prod.mk.injEq] at hrun
    obtain ⟨hr, hst⟩ := hrun
    have hstate := srcRun_state lib env cfg _ _ _ _ _ _ heq
    have hmn : st'.MNEMONIC = some (toLowerCase m) := by
      rw [← hst, hstate]
    have hnet : st'.NETWORK = toUpperCase net := by
      rw [← hst, hstate]
      exact toUpperCase_idem net
    refine ⟨hmn, hnet, fun kp hkp => ?_, fun n2 => ?_⟩
    · rw [← hr] at hkp
      cases hkp
      obtain ⟨hlw, hlb, helt⟩ := srcRun_ok_shape lib env cfg _ _ _ _ _ _ _ heq
      refine ⟨w.map (fun a => a.address), w.map (fun a => a.privateKey.drop 2), rfl,
        by simpa using hlw, fun i hi => ?_⟩
      obtain ⟨pk, pOpt, hfm, hget⟩ := helt i hi
      refine ⟨pk, by simpa using hfm, ?_⟩
      rw [List.getElem?_map, hget]
      rfl
    · rw [srcGetKeyPairs, srcGetKeyPairs]
      simp only [Option.getD, hmn]
  · rename_i e st3 heq
    simp only [Prod.mk.injEq] at hrun
    obtain ⟨hr, hst⟩ := hrun
    have hstate := srcRun_state lib env cfg _ _ _ _ _ _ heq
    have hmn : st'.MNEMONIC = some (toLowerCase m) := by
      rw [← hst, hstate]
    have hnet : st'.NETWORK = toUpperCase net := by
      rw [← hst, hstate]
      exact toUpperCase_idem net
    refine ⟨hmn, hnet, fun kp hkp => ?_, fun n2 => ?_⟩
    · rw [← hr] at hkp
      cases hkp
    · rw [srcGetKeyPairs, srcGetKeyPairs]
      simp only [Option.getD, hmn]

/-- C9 (witness): a concrete getKeyPairs call with a mixed-case mnemonic and a
lowercase network; the stored state holds the lowercased mnemonic and the
uppercased network. -/
theorem c9_witness :
    ∃ r st', srcGetKeyPairs witLib witEnv witCfg { NETWORK := "GANACHE", MNEMONIC := none }
        (some "rinkeby") (some 1) (some "My Words") = (r, st') ∧
      st'.MNEMONIC = some (toLowerCase "My Words") ∧ st'.NETWORK = toUpperCase "rinkeby" := by
  refine ⟨_, _, rfl, ?_, ?_⟩
  · exact (c9_keyPairs_mutates_module_state witLib witEnv witCfg
      { NETWORK := "GANACHE", MNEMONIC := none } "rinkeby" "My Words" 1 _ _ rfl).1
  · exact (c9_keyPairs_mutates_module_state witLib witEnv witCfg
      { NETWORK := "GANACHE", MNEMONIC := none } "rinkeby" "My Words" 1 _ _ rfl).2.1
